import Mathlib

/-!
Shallow embedding of `src/train.py` from the `arabic-did` repository, together
with theorems checking the natural-language specification against it.

Conventions of the embedding:
* Python dictionaries of configuration values become Lean structures with the
  same field names (`config['optimizer']['lr']` becomes `config.optimizer.lr`).
* Tensors become nested lists of rationals; `torch.argmax`, `view`, `repeat`
  and boolean-mask counting are given their documented semantics on lists.
* Stateful calls (gradient zeroing, backward, optimizer steps, `ray.init`,
  checkpoint save and restore, dataset construction) are recorded as events in
  an explicit trace, so temporal claims become statements about traces.
* Python exceptions become `Except` results.
-/

namespace TrainPy

/-- `config['optimizer']` in `train.py`: name, learning rate, betas, eps. -/
structure OptimizerCfg where
  name : String
  lr : ℚ
  betas : ℚ × ℚ
  eps : ℚ
  deriving DecidableEq, Repr

/-- `config['training']` fields used by `train.py`. -/
structure TrainingCfg where
  train_batch_size : Nat
  training_epochs : Nat
  log_every_n_batches : Nat
  eval_every_n_batches : Nat
  n_train_workers : Nat
  deriving DecidableEq, Repr

/-- `config['evaluation']` fields used by `train.py`. -/
structure EvaluationCfg where
  eval_batch_size : Nat
  n_eval_workers : Nat
  deriving DecidableEq, Repr

/-- `config['tune']` fields used by `tune_training`. -/
structure TuneCfg where
  tuning_method : String
  resume : Bool
  n_samples : Nat
  working_dir : String
  max_t : Nat
  discriminating_metric : String
  discriminating_metric_mode : String
  deriving DecidableEq, Repr

/-- The nested configuration dictionary consumed by `train.py`. -/
structure Config where
  optimizer : OptimizerCfg
  training : TrainingCfg
  evaluation : EvaluationCfg
  tune : TuneCfg
  experiment_name : String
  device : String
  deriving DecidableEq, Repr

/-- The two Adam variants `get_optimizers` can construct. -/
inductive OptKind where
  | adam
  | sparseAdam
  deriving DecidableEq, Repr

/-- A constructed optimizer: its kind and the parameters (by id) it is bound
to, plus the hyperparameters passed at construction. -/
structure Optimizer where
  kind : OptKind
  params : List Nat
  lr : ℚ
  betas : ℚ × ℚ
  eps : ℚ
  deriving DecidableEq, Repr

/-- `torch.optim.Adam(params, lr, betas, eps)`: raises `ValueError` on an
empty parameter list (documented torch behaviour), otherwise constructs the
optimizer bound to exactly those parameters. -/
def adamNew (params : List Nat) (lr : ℚ) (betas : ℚ × ℚ) (eps : ℚ) :
    Except String Optimizer :=
  if params.isEmpty then .error "optimizer got an empty parameter list"
  else .ok ⟨.adam, params, lr, betas, eps⟩

/-- `torch.optim.SparseAdam(params, lr, betas, eps)`: same empty-list check,
sparse-aware variant. -/
def sparseAdamNew (params : List Nat) (lr : ℚ) (betas : ℚ × ℚ) (eps : ℚ) :
    Except String Optimizer :=
  if params.isEmpty then .error "optimizer got an empty parameter list"
  else .ok ⟨.sparseAdam, params, lr, betas, eps⟩

/-- Per-position class scores: one rational score per class. -/
abbrev Scores := List ℚ

/-- Model output tensor of shape (output steps, batch, classes). -/
abbrev Outputs := List (List Scores)

/-- The model as `train.py` sees it: disjoint dense/sparse parameter subsets
(`get_non_sparse_parameters` / `get_sparse_parameters`), a forward transform
from a token batch to per-step per-position class scores, and the
training-mode flag toggled by `model.train()` / `model.eval()`. -/
structure Model where
  denseParams : List Nat
  sparseParams : List Nat
  forward : List (List Nat) → Outputs
  training : Bool

/-- The model's full parameter set (`model.parameters()`): the dense and the
sparse subset together. -/
def Model.allParams (m : Model) : List Nat :=
  m.denseParams ++ m.sparseParams

/-- `get_optimizers(model, config)` from `train.py` lines 71-85: for the
`'adam'` optimizer name, builds a dense Adam over the non-sparse parameters,
then returns it alone when the sparse subset is empty, or together with a
`SparseAdam` over the sparse parameters otherwise; every other optimizer name
raises `NotImplementedError`. -/
def get_optimizers (model : Model) (config : Config) :
    Except String (List Optimizer) :=
  if config.optimizer.name = "adam" then
    match adamNew model.denseParams config.optimizer.lr config.optimizer.betas
        config.optimizer.eps with
    | .error e => .error e
    | .ok non_sparse =>
      if model.sparseParams.length = 0 then
        .ok [non_sparse]
      else
        match sparseAdamNew model.sparseParams config.optimizer.lr
            config.optimizer.betas config.optimizer.eps with
        | .error e => .error e
        | .ok sparse => .ok [non_sparse, sparse]
  else
    .error "NotImplementedError"

/-- `torch.argmax` over a score vector, auxiliary loop: `i` is the index of
the next element, `bi`/`bv` the index and value of the best element so far
(first occurrence of the maximum wins). -/
def argmaxFrom : Nat → Nat → ℚ → List ℚ → Nat
  | _, bi, _, [] => bi
  | i, bi, bv, x :: xs =>
    if bv < x then argmaxFrom (i + 1) i x xs else argmaxFrom (i + 1) bi bv xs

/-- `torch.argmax(v)` on a one-dimensional score vector: index of the first
occurrence of the maximum (0 on the empty vector, which torch rejects). -/
def argmaxIdx : List ℚ → Nat
  | [] => 0
  | x :: xs => argmaxFrom 1 0 x xs

/-- `chosen_label[chosen_label == labels].nelement()` from line 137 of
`train.py`: the number of positions at which the predicted label equals the
true label (boolean-mask indexing followed by element count). -/
def matchCount (pred labels : List Nat) : Nat :=
  ((pred.zip labels).filter fun p => p.1 = p.2).length

/-- `outputs[-1, :, :]` followed by `argmax(·, dim=1)` (line 136): the
predicted label of every batch element, read off the final output step. -/
def chosenLabels (outputs : Outputs) : List Nat :=
  (outputs.getLastD []).map argmaxIdx

/-- `labels.repeat(output_len)` (line 140): the label vector concatenated
with itself `output_len` times. -/
def repeatLabels (labels : List Nat) (output_len : Nat) : List Nat :=
  (List.replicate output_len labels).flatten

/-- `outputs.view(-1, classes)` (line 139) on a contiguous tensor of shape
(steps, batch, classes): the rows of all steps concatenated in step-major
order. -/
def viewFlat (outputs : Outputs) : List Scores :=
  outputs.flatten

/-- The observable events of one `training_step` call, in order: putting the
model in training mode, zeroing one optimizer's gradients, the forward pass
(recording the model's mode at that moment), the backward pass, and one
optimizer's `step()`. -/
inductive TSEvent where
  | setTrainMode
  | zeroGrad (i : Nat)
  | forward (trainingMode : Bool)
  | backward
  | stepOpt (i : Nat)
  deriving DecidableEq, Repr

/-- What one `training_step` call produces: its event trace, the model it
leaves behind, the loss and the training accuracy it returns. -/
structure TSResult where
  trace : List TSEvent
  model : Model
  loss : ℚ
  accuracy : ℚ

/-- `training_step(training_batch, model, optimizers, loss_func)` from
`train.py` lines 131-144, translated line by line. `training_batch` is the
pair `(labels, tokens)`; `loss_func` is the criterion passed in (abstract:
any function of the flattened score matrix and the repeated label vector). -/
def training_step (training_batch : List Nat × List (List Nat)) (model : Model)
    (optimizers : List Optimizer) (loss_func : List Scores → List Nat → ℚ) :
    TSResult :=
  let model := { model with training := true }
  let evZero := (List.range optimizers.length).map TSEvent.zeroGrad
  let labels := training_batch.1
  let tokens := training_batch.2
  let outputs := model.forward tokens
  let evFwd := [TSEvent.forward model.training]
  let chosen_label := chosenLabels outputs
  let train_accuracy : ℚ :=
    (matchCount chosen_label labels : ℚ) / (labels.length : ℚ)
  let output_len := outputs.length
  let outputsFlat := viewFlat outputs
  let labelsRep := repeatLabels labels output_len
  let loss := loss_func outputsFlat labelsRep
  let evStep := (List.range optimizers.length).map TSEvent.stepOpt
  { trace := [TSEvent.setTrainMode] ++ evZero ++ evFwd ++ [TSEvent.backward]
      ++ evStep
    model := model
    loss := loss
    accuracy := train_accuracy }

/-- The sizes of the batches a `DataLoader(batch_size=bs, drop_last=False)`
yields over a dataset of `n` examples: `n / bs` full batches followed by one
remainder batch when `bs` does not divide `n`. Shuffling permutes examples,
not batch sizes, so the size sequence is the same every epoch. -/
def batchSizes (n bs : Nat) : List Nat :=
  List.replicate (n / bs) bs ++ (if n % bs = 0 then [] else [n % bs])

/-- A metric report emitted by `normal_training`: either the `train_loss`
metric or the block of evaluation metrics, tagged with the epoch, the batch
index within the epoch, and the step value (`num_examples`, the cumulative
processed-example count) it was logged at. -/
inductive Report where
  | trainLoss (epoch idx step : Nat)
  | evalReport (epoch idx step : Nat)
  deriving DecidableEq, Repr

/-- Extracts the step value of a `train_loss` report (and drops evaluation
reports). -/
def trainLossStep : Report → Option Nat
  | .trainLoss _ _ step => some step
  | .evalReport _ _ _ => none

/-- The inner batch loop of `normal_training` (lines 116-128) over one epoch:
`idx` enumerates batches from where the enumeration currently stands,
`num_examples` accumulates `len(batch[0])` before the logging checks, a
`train_loss` report is emitted when `idx % log_every_n_batches == 0` and an
evaluation report when `idx % eval_every_n_batches == 0`. Returns the
reports of the remaining batches and the final `num_examples`. -/
def epochLoop (epoch : Nat) (logN evalN : Nat) :
    List Nat → Nat → Nat → List Report × Nat
  | [], _, num => ([], num)
  | b :: rest, idx, num =>
    let num' := num + b
    let logs :=
      (if idx % logN = 0 then [Report.trainLoss epoch idx num'] else []) ++
      (if idx % evalN = 0 then [Report.evalReport epoch idx num'] else [])
    let tail := epochLoop epoch logN evalN rest (idx + 1) num'
    (logs ++ tail.1, tail.2)

/-- The outer epoch loop of `normal_training` (line 115): runs `left` more
epochs starting at epoch number `epoch`, threading `num_examples` across
epochs; the batch index restarts at 0 in every epoch. -/
def runEpochs (sizes : List Nat) (logN evalN : Nat) :
    Nat → Nat → Nat → List Report
  | 0, _, _ => []
  | left + 1, epoch, num =>
    let this := epochLoop epoch logN evalN sizes 0 num
    this.1 ++ runEpochs sizes logN evalN left (epoch + 1) this.2

/-- The reports emitted by the `normal_training` loop of `train.py` lines
114-128, for a training dataset of `nExamples` examples: `num_examples`
starts at 0 and every epoch iterates the train dataloader's batches. -/
def normal_training_reports (config : Config) (nExamples : Nat) :
    List Report :=
  runEpochs (batchSizes nExamples config.training.train_batch_size)
    config.training.log_every_n_batches config.training.eval_every_n_batches
    config.training.training_epochs 0 0

/-- The two dataset splits cached at module level in `train.py`. -/
inductive Split where
  | train
  | eval
  deriving DecidableEq, Repr

/-- The process-wide mutable state of `train.py`: the module-level
`train_dataset` and `eval_dataset` globals (each `none` until first built),
plus a counter handing out fresh instance identities to newly constructed
`CSVDatasetsMerger` objects. -/
structure DataState where
  nextId : Nat
  train_dataset : Option Nat
  eval_dataset : Option Nat
  deriving DecidableEq, Repr

/-- The state of the process at module load: both dataset globals are
`None`. -/
def initialDataState : DataState := ⟨0, none, none⟩

/-- A constructed `DataLoader`: the identity of the dataset instance it wraps
and the arguments `train.py` passes. -/
structure DataLoaderR where
  dataset : Nat
  batch_size : Nat
  shuffle : Bool
  drop_last : Bool
  num_workers : Nat
  deriving DecidableEq, Repr

/-- `get_train_dataloader(config, transformer)` from lines 41-53: builds the
train dataset only if the global is still `None`, then wraps whatever the
global now holds in a fresh shuffled `DataLoader`. Returns the loader, the
new process state, and the list of dataset-construction events performed. -/
def get_train_dataloader (config : Config) (s : DataState) :
    DataLoaderR × DataState × List Split :=
  let built : DataState × List Split :=
    match s.train_dataset with
    | some _ => (s, [])
    | none =>
      ({ s with nextId := s.nextId + 1, train_dataset := some s.nextId },
       [Split.train])
  let ds := (built.1.train_dataset).getD 0
  (⟨ds, config.training.train_batch_size, true, false,
      config.training.n_train_workers⟩,
   built.1, built.2)

/-- `get_eval_dataloader(config, transformer)` from lines 56-68: same lazy
construction for the eval dataset global, sequential `DataLoader`. -/
def get_eval_dataloader (config : Config) (s : DataState) :
    DataLoaderR × DataState × List Split :=
  let built : DataState × List Split :=
    match s.eval_dataset with
    | some _ => (s, [])
    | none =>
      ({ s with nextId := s.nextId + 1, eval_dataset := some s.nextId },
       [Split.eval])
  let ds := (built.1.eval_dataset).getD 0
  (⟨ds, config.evaluation.eval_batch_size, false, false,
      config.evaluation.n_eval_workers⟩,
   built.1, built.2)

/-- One dataloader request made at some point in the process's lifetime:
which split, and with which configuration. -/
inductive DLCall where
  | train (config : Config)
  | eval (config : Config)

/-- The split a call addresses. -/
def DLCall.split : DLCall → Split
  | .train _ => .train
  | .eval _ => .eval

/-- Runs a sequence of dataloader requests against the process state,
collecting every returned loader (tagged by split) and every
dataset-construction event. -/
def runCalls (s : DataState) :
    List DLCall → List (Split × DataLoaderR) × DataState × List Split
  | [] => ([], s, [])
  | c :: rest =>
    let step :=
      match c with
      | .train config => get_train_dataloader config s
      | .eval config => get_eval_dataloader config s
    let tail := runCalls step.2.1 rest
    ((c.split, step.1) :: tail.1, tail.2.1, step.2.2 ++ tail.2.2)

/-- The observable actions of `tune_training` (lines 147-229) and of the
`tune.run` invocation it makes, in order of occurrence. `rayInit` is the
`ray.init()` call; `restoreCheckpoint` records `algo.restore` together with
whether the load succeeded; `warnColdStart` is the red "Unable to load
trials. Cold starting ..." message; `warmStart` the green warm-start message
with the number of loaded trials; `sample` is the search algorithm proposing
a configuration (identified by id); `runTrial` the trial executing under that
configuration; `saveCheckpoint` the `algo.save` performed by
`HyperOptFIFO.on_trial_complete`; `tuneRunDone` the return of `tune.run`. -/
inductive TuneAction where
  | rayInit
  | buildSearchSpace (method : String)
  | restoreCheckpoint (dir : String) (ok : Bool)
  | warnColdStart
  | warmStart (nTrials : Nat)
  | sample (configId : Nat)
  | runTrial (configId : Nat)
  | saveCheckpoint (dir : String)
  | tuneRunDone
  deriving DecidableEq, Repr

/-- The hyperopt checkpoint directory
`os.path.join(config['tune']['working_dir'], config['experiment_name'],
'hyperopt')` (line 206). -/
def checkpointDir (config : Config) : String :=
  config.tune.working_dir ++ "/" ++ config.experiment_name ++ "/hyperopt"

/-- Modelled from the spec: the external `HyperOptSearch` algorithm proposes
the next configuration to try and never reproposes one already in its
observation history ("skipping already-evaluated configurations"). The
history is the list of configuration ids whose results the algorithm has
observed; the proposal is any id not in the history — here the successor of
the largest observed id. -/
def nextSample (history : List Nat) : Nat :=
  (history.foldr max 0) + 1

/-- Modelled from the spec: the sequence of configuration ids the search
algorithm proposes over `n` sequential trials (`max_concurrent=1`), each
trial's result being added to the observation history before the next
proposal. -/
def sampledConfigs (history : List Nat) : Nat → List Nat
  | 0 => []
  | n + 1 =>
    let c := nextSample history
    c :: sampledConfigs (history ++ [c]) n

/-- Modelled from the spec: the trace of the `tune.run` call of the hyperopt
branch (lines 216-220) — `n` sequential trials, each sampled by the search
algorithm, executed, and followed by the `algo.save(hyper_opt_checkpoint_dir)`
that `HyperOptFIFO.on_trial_complete` (lines 188-193, source) performs when
the trial completes. -/
def tuneRunHyperopt (dir : String) (history : List Nat) (n : Nat) :
    List TuneAction :=
  (sampledConfigs history n).map
    (fun c => [TuneAction.sample c, TuneAction.runTrial c,
               TuneAction.saveCheckpoint dir])
  |>.flatten

/-- Modelled from the spec: the trace of the bohb branch's `tune.run` (line
182, `num_samples=1`): one configuration sampled from the ConfigSpace search
space and one trial run; no checkpoint save or restore anywhere. -/
def tuneRunBohb : List TuneAction :=
  [TuneAction.sample 0, TuneAction.runTrial 0]

/-- Modelled from the spec: the trace of the `no_search` branch's `tune.run`
(lines 223-226): `n` trials of the fixed configuration, no search algorithm,
no checkpointing. -/
def tuneRunNoSearch (n : Nat) : List TuneAction :=
  (List.range n).map TuneAction.runTrial

/-- `tune_training(config)` from `train.py` lines 147-229. `ray.init()` runs
before the dispatch on `config['tune']['tuning_method']`; the bohb branch
builds a ConfigSpace and runs one sample with no checkpointing; the hyperopt
branch computes the checkpoint directory, restores the search algorithm's
state when the resume flag is set (recovering locally with a cold-start
warning when the load raises), then runs `tune.run` with the checkpointing
`HyperOptFIFO` scheduler; the `no_search` branch runs trials with no search
algorithm; any other method name raises `NotImplementedError`.
`checkpointHistory` is the observation history stored in the checkpoint
directory and `restoreOk` whether `algo.restore` succeeds — both facts about
the external filesystem. Returns the action trace and the outcome. -/
def tune_training (config : Config) (checkpointHistory : List Nat)
    (restoreOk : Bool) : List TuneAction × Except String Unit :=
  let init := [TuneAction.rayInit]
  if config.tune.tuning_method = "bohb" then
    (init ++ [TuneAction.buildSearchSpace "bohb"] ++ tuneRunBohb
       ++ [TuneAction.tuneRunDone], .ok ())
  else if config.tune.tuning_method = "hyperopt" then
    let dir := checkpointDir config
    let restored : List TuneAction × List Nat :=
      if config.tune.resume then
        if restoreOk then
          ([TuneAction.restoreCheckpoint dir true,
            TuneAction.warmStart checkpointHistory.length], checkpointHistory)
        else
          ([TuneAction.restoreCheckpoint dir false, TuneAction.warnColdStart],
           [])
      else ([], [])
    (init ++ restored.1 ++ tuneRunHyperopt dir restored.2 config.tune.n_samples
       ++ [TuneAction.tuneRunDone], .ok ())
  else if config.tune.tuning_method = "no_search" then
    (init ++ tuneRunNoSearch config.tune.n_samples ++ [TuneAction.tuneRunDone],
     .ok ())
  else
    (init, .error "NotImplementedError")

/-- The specification's formulation of the accuracy numerator: the number of
positions at which the argmax over classes of the final output step's scores
equals the label at that position. -/
def specMatchCount (finalStep : List Scores) (labels : List Nat) : Nat :=
  ((List.range labels.length).filter
    fun i => argmaxIdx (finalStep.getD i []) = labels.getD i 0).length

/-- A concrete configuration used to instantiate the theorems: Adam
optimizer, batch size 8, one epoch, both cadences 1, hyperopt tuning with
resume set. -/
def sampleConfig : Config :=
  { optimizer := ⟨"adam", 1, (1, 1), 1⟩
    training := ⟨8, 1, 1, 1, 0⟩
    evaluation := ⟨8, 0⟩
    tune := ⟨"hyperopt", true, 2, "wd", 100, "micro_accuracy", "max"⟩
    experiment_name := "exp"
    device := "cpu" }

/-- A concrete model with one dense and one sparse parameter. -/
def sampleModel : Model :=
  ⟨[0], [1], fun _ => [[[1, 0], [0, 1]]], false⟩

/-- The optimizer list `get_optimizers` builds for `sampleModel` under
`sampleConfig`. -/
def sampleOpts : List Optimizer :=
  [⟨.adam, [0], 1, (1, 1), 1⟩, ⟨.sparseAdam, [1], 1, (1, 1), 1⟩]

/-- `sampleConfig` with the bohb tuning method selected (resume flag still
set). -/
def bohbConfig : Config :=
  { sampleConfig with
      tune := { sampleConfig.tune with tuning_method := "bohb" } }

/-- `sampleConfig` with a tuning-method name no branch of `tune_training`
supports. -/
def badMethodConfig : Config :=
  { sampleConfig with
      tune := { sampleConfig.tune with tuning_method := "foo" } }

/-- `sampleConfig` with an unsupported optimizer name but the supported
hyperopt tuning method. -/
def sgdConfig : Config :=
  { sampleConfig with
      optimizer := { sampleConfig.optimizer with name := "sgd" } }

/-- **C1.** For every model and configuration whose optimizer name is
`'adam'`, whenever `get_optimizers` returns, the returned optimizer group
holds exactly one optimizer per non-empty parameter subset — the dense Adam
alone when the sparse subset is empty, dense Adam plus sparse Adam otherwise
— each bound to a non-empty subset, the union of the bound parameters being
the model's full parameter set, and (when the subsets are disjoint) no
parameter bound by two optimizers. -/
theorem get_optimizers_adam_partition (model : Model) (config : Config)
    (opts : List Optimizer)
    (hname : config.optimizer.name = "adam")
    (hdisj : ∀ p ∈ model.denseParams, p ∉ model.sparseParams)
    (hok : get_optimizers model config = .ok opts) :
    opts.map Optimizer.params =
      (if model.sparseParams = [] then [model.denseParams]
       else [model.denseParams, model.sparseParams]) ∧
    (opts.map Optimizer.params).flatten = model.allParams ∧
    (∀ o ∈ opts, o.params ≠ []) ∧
    (∀ o₁ ∈ opts, ∀ o₂ ∈ opts, o₁ ≠ o₂ → ∀ p ∈ o₁.params, p ∉ o₂.params) := by
  simp only [get_optimizers, hname, if_true, adamNew, sparseAdamNew] at hok
  cases hde : model.denseParams with
  | nil => rw [hde] at hok; simp at hok
  | cons d ds =>
    rw [hde] at hok
    simp only [List.isEmpty_cons, Bool.false_eq_true, if_false] at hok
    cases hs : model.sparseParams with
    | nil =>
      rw [hs] at hok
      simp only [List.length_nil, if_pos rfl] at hok
      cases hok
      refine ⟨by simp [hs, hde], by simp [Model.allParams, hs, hde], ?_, ?_⟩
      · intro o ho
        simp only [List.mem_singleton] at ho
        subst ho
        simp
      · intro o₁ h₁ o₂ h₂ hne
        simp only [List.mem_singleton] at h₁ h₂
        subst h₁; subst h₂
        exact absurd rfl hne
    | cons sp sps =>
      rw [hs] at hok
      simp only [List.length_cons, Nat.succ_ne_zero, if_false,
        List.isEmpty_cons, Bool.false_eq_true] at hok
      cases hok
      rw [← hde, ← hs]
      have hsne : model.sparseParams ≠ [] := by rw [hs]; simp
      refine ⟨by simp [hsne, hde, hs], by simp [Model.allParams, hde, hs], ?_, ?_⟩
      · intro o ho
        rw [hde, hs] at ho
        simp only [List.mem_cons, List.not_mem_nil, or_false] at ho
        rcases ho with ho | ho <;> (subst ho; simp)
      · intro o₁ h₁ o₂ h₂ hne p hp
        rw [hde, hs] at h₁ h₂
        simp only [List.mem_cons, List.not_mem_nil, or_false] at h₁ h₂
        rcases h₁ with h₁ | h₁ <;> rcases h₂ with h₂ | h₂ <;>
          (subst h₁; subst h₂)
        · exact absurd rfl hne
        · rw [← hde] at hp
          rw [← hs]
          exact hdisj p hp
        · rw [← hs] at hp
          rw [← hde]
          intro hcon
          exact hdisj p hcon hp
        · exact absurd rfl hne

/-- Witness for C1 at `sampleModel` / `sampleConfig`: the hypotheses hold and
the parameter union is the model's full parameter set. -/
theorem get_optimizers_adam_partition_witness :
    sampleConfig.optimizer.name = "adam" ∧
    (∀ p ∈ sampleModel.denseParams, p ∉ sampleModel.sparseParams) ∧
    get_optimizers sampleModel sampleConfig = .ok sampleOpts ∧
    (sampleOpts.map Optimizer.params).flatten = sampleModel.allParams :=
  ⟨rfl, by decide, by rfl,
    (get_optimizers_adam_partition sampleModel sampleConfig sampleOpts rfl
      (by decide) (by rfl)).2.1⟩

theorem matchCount_cons (p l : Nat) (pred labs : List Nat) :
    matchCount (p :: pred) (l :: labs) =
      (if p = l then 1 else 0) + matchCount pred labs := by
  by_cases h : p = l <;>
    simp only [matchCount, List.zip_cons_cons, List.filter_cons, h] <;>
    simp <;> omega

theorem specMatchCount_cons (a : Scores) (xs : List Scores) (b : Nat)
    (ys : List Nat) :
    specMatchCount (a :: xs) (b :: ys) =
      (if argmaxIdx a = b then 1 else 0) + specMatchCount xs ys := by
  by_cases h : argmaxIdx a = b <;>
    simp only [specMatchCount, List.length_cons, List.range_succ_eq_map,
      List.filter_cons, List.getD_cons_zero, List.getD_cons_succ,
      List.filter_map, List.length_map, Function.comp_def, h] <;>
    simp <;> omega

theorem matchCount_eq_specMatchCount (xs : List Scores) (ys : List Nat)
    (h : xs.length = ys.length) :
    matchCount (xs.map argmaxIdx) ys = specMatchCount xs ys := by
  induction xs generalizing ys with
  | nil =>
    cases ys with
    | nil => rfl
    | cons b ys => simp at h
  | cons a xs ih =>
    cases ys with
    | nil => simp at h
    | cons b ys =>
      simp only [List.length_cons] at h
      have h' : xs.length = ys.length := by omega
      rw [List.map_cons, matchCount_cons, specMatchCount_cons, ih ys h']

theorem matchCount_le_length (pred labs : List Nat) :
    matchCount pred labs ≤ labs.length := by
  have h1 : matchCount pred labs ≤ (pred.zip labs).length :=
    List.length_filter_le _ _
  have h2 : (pred.zip labs).length = min pred.length labs.length :=
    List.length_zip _ _
  omega

theorem training_step_accuracy_def (tb : List Nat × List (List Nat))
    (model : Model) (optimizers : List Optimizer)
    (loss_func : List Scores → List Nat → ℚ) :
    (training_step tb model optimizers loss_func).accuracy =
      (matchCount (chosenLabels (model.forward tb.2)) tb.1 : ℚ)
        / (tb.1.length : ℚ) := rfl

/-- **C2.** For every training batch with at least one label, a non-empty
model output, and predictions aligned with the labels, the accuracy returned
by `training_step` lies in [0,1] and equals the number of positions where
the argmax over classes of the final output step's scores matches the
label, divided by the number of labels. -/
theorem training_step_accuracy_in_unit_interval
    (tb : List Nat × List (List Nat)) (model : Model)
    (optimizers : List Optimizer) (loss_func : List Scores → List Nat → ℚ)
    (hlab : tb.1 ≠ [])
    (hout : model.forward tb.2 ≠ [])
    (hlen : ((model.forward tb.2).getLastD []).length = tb.1.length) :
    0 ≤ (training_step tb model optimizers loss_func).accuracy ∧
    (training_step tb model optimizers loss_func).accuracy ≤ 1 ∧
    (training_step tb model optimizers loss_func).accuracy =
      (specMatchCount ((model.forward tb.2).getLastD []) tb.1 : ℚ)
        / (tb.1.length : ℚ) := by
  have hacc := training_step_accuracy_def tb model optimizers loss_func
  have hchosen : chosenLabels (model.forward tb.2) =
      ((model.forward tb.2).getLastD []).map argmaxIdx := rfl
  have hm : matchCount (((model.forward tb.2).getLastD []).map argmaxIdx) tb.1
      = specMatchCount ((model.forward tb.2).getLastD []) tb.1 :=
    matchCount_eq_specMatchCount _ _ hlen
  have hle : matchCount (((model.forward tb.2).getLastD []).map argmaxIdx)
      tb.1 ≤ tb.1.length := matchCount_le_length _ _
  have hnpos : 0 < tb.1.length := List.length_pos.mpr hlab
  have hn : (0 : ℚ) < (tb.1.length : ℚ) := by exact_mod_cast hnpos
  refine ⟨?_, ?_, ?_⟩
  · rw [hacc]
    exact div_nonneg (Nat.cast_nonneg _) hn.le
  · rw [hacc, div_le_one hn, hchosen]
    exact_mod_cast hle
  · rw [hacc, hchosen, hm]

/-- Witness for C2: a concrete batch of two labels against `sampleModel`'s
single-step output, where both argmax predictions match, gives accuracy 1. -/
theorem training_step_accuracy_in_unit_interval_witness :
    ([0, 1] : List Nat) ≠ [] ∧
    sampleModel.forward [[0]] ≠ [] ∧
    ((sampleModel.forward [[0]]).getLastD []).length =
      ([0, 1] : List Nat).length ∧
    (training_step ([0, 1], [[0]]) sampleModel sampleOpts
        (fun _ _ => 0)).accuracy ≤ 1 :=
  ⟨by decide, by decide, by decide,
    (training_step_accuracy_in_unit_interval ([0, 1], [[0]]) sampleModel
      sampleOpts (fun _ _ => 0) (by decide) (by decide) (by decide)).2.1⟩

theorem getD_flatten_rect {α : Type} (B : Nat) :
    ∀ (xss : List (List α)) (s b : Nat) (d : α),
      (∀ row ∈ xss, row.length = B) → s < xss.length → b < B →
      xss.flatten.getD (s * B + b) d = (xss.getD s []).getD b d := by
  intro xss
  induction xss with
  | nil =>
    intro s b d _ hs _
    simp at hs
  | cons row rest ih =>
    intro s b d hrect hs hb
    have hrow : row.length = B := hrect row (List.mem_cons_self _ _)
    cases s with
    | zero =>
      simp only [List.flatten_cons, Nat.zero_mul, Nat.zero_add,
        List.getD_cons_zero]
      exact List.getD_append _ _ _ _ (by rw [hrow]; exact hb)
    | succ s' =>
      simp only [List.flatten_cons, List.getD_cons_succ]
      rw [List.getD_append_right _ _ _ _ (by rw [hrow, Nat.succ_mul]; omega)]
      have harith : (s' + 1) * B + b - row.length = s' * B + b := by
        rw [hrow, Nat.succ_mul]; omega
      rw [harith]
      exact ih s' b d (fun r hr => hrect r (List.mem_cons_of_mem _ hr))
        (by simpa using hs) hb

theorem length_flatten_rect {α : Type} (B : Nat) :
    ∀ (xss : List (List α)), (∀ row ∈ xss, row.length = B) →
      xss.flatten.length = xss.length * B := by
  intro xss
  induction xss with
  | nil => intro _; simp
  | cons row rest ih =>
    intro h
    simp only [List.flatten_cons, List.length_append, List.length_cons]
    rw [h row (List.mem_cons_self _ _),
      ih (fun r hr => h r (List.mem_cons_of_mem _ hr)), Nat.succ_mul]
    omega

theorem repeatLabels_length (labels : List Nat) (L : Nat) :
    (repeatLabels labels L).length = L * labels.length := by
  unfold repeatLabels
  rw [length_flatten_rect labels.length _
    (fun r hr => by rw [List.eq_of_mem_replicate hr]), List.length_replicate]

theorem getD_repeatLabels (labels : List Nat) (L s b : Nat)
    (hs : s < L) (hb : b < labels.length) :
    (repeatLabels labels L).getD (s * labels.length + b) 0 =
      labels.getD b 0 := by
  unfold repeatLabels
  rw [getD_flatten_rect labels.length _ s b 0
    (fun r hr => by rw [List.eq_of_mem_replicate hr])
    (by simpa using hs) hb]
  congr 1
  rw [List.getD_eq_getElem _ _ (by simpa using hs), List.getElem_replicate]

theorem count_backward_map_zeroGrad (n : Nat) :
    ((List.range n).map TSEvent.zeroGrad).count TSEvent.backward = 0 := by
  rw [List.count_eq_zero]
  intro hmem
  obtain ⟨i, _, hi⟩ := List.mem_map.mp hmem
  simp at hi

theorem count_backward_map_stepOpt (n : Nat) :
    ((List.range n).map TSEvent.stepOpt).count TSEvent.backward = 0 := by
  rw [List.count_eq_zero]
  intro hmem
  obtain ⟨i, _, hi⟩ := List.mem_map.mp hmem
  simp at hi

/-- **C3.** For every training batch whose model output rows match the label
count, `training_step` follows the specified algorithm: its event trace is —
in order — putting the model in training mode, zeroing every optimizer's
gradients, one forward pass, one backward pass, then `step()` on every
optimizer; the backward pass happens exactly once; the loss is the criterion
applied to the (steps·batch, classes) flattening of the output and to the
label vector repeated once per output step; and the flattening/repetition
align so that row s·batch+b carries step s of position b supervised by label
b — each label supervises every output step. -/
theorem training_step_loss_all_steps
    (tb : List Nat × List (List Nat)) (model : Model)
    (optimizers : List Optimizer) (loss_func : List Scores → List Nat → ℚ)
    (hrect : ∀ row ∈ model.forward tb.2, row.length = tb.1.length) :
    (training_step tb model optimizers loss_func).trace =
      [TSEvent.setTrainMode]
        ++ (List.range optimizers.length).map TSEvent.zeroGrad
        ++ [TSEvent.forward true] ++ [TSEvent.backward]
        ++ (List.range optimizers.length).map TSEvent.stepOpt ∧
    (training_step tb model optimizers loss_func).trace.count
      TSEvent.backward = 1 ∧
    (training_step tb model optimizers loss_func).loss =
      loss_func (viewFlat (model.forward tb.2))
        (repeatLabels tb.1 (model.forward tb.2).length) ∧
    (viewFlat (model.forward tb.2)).length =
      (model.forward tb.2).length * tb.1.length ∧
    (repeatLabels tb.1 (model.forward tb.2).length).length =
      (model.forward tb.2).length * tb.1.length ∧
    ∀ s b, s < (model.forward tb.2).length → b < tb.1.length →
      (viewFlat (model.forward tb.2)).getD (s * tb.1.length + b) [] =
        ((model.forward tb.2).getD s []).getD b [] ∧
      (repeatLabels tb.1 (model.forward tb.2).length).getD
          (s * tb.1.length + b) 0 = tb.1.getD b 0 := by
  have ht : (training_step tb model optimizers loss_func).trace =
      [TSEvent.setTrainMode]
        ++ (List.range optimizers.length).map TSEvent.zeroGrad
        ++ [TSEvent.forward true] ++ [TSEvent.backward]
        ++ (List.range optimizers.length).map TSEvent.stepOpt := rfl
  refine ⟨ht, ?_, rfl, ?_, ?_, ?_⟩
  · rw [ht]
    simp [List.count_append, count_backward_map_zeroGrad,
      count_backward_map_stepOpt, List.count_cons]
  · exact length_flatten_rect tb.1.length _ hrect
  · exact repeatLabels_length tb.1 _
  · intro s b hs hb
    exact ⟨getD_flatten_rect tb.1.length _ s b [] hrect hs hb,
      getD_repeatLabels tb.1 _ s b hs hb⟩

/-- Witness for C3 at a concrete batch: the backward pass happens exactly
once and the loss is the criterion on the flattened output with repeated
labels. -/
theorem training_step_loss_all_steps_witness :
    (∀ row ∈ sampleModel.forward [[0]],
      row.length = ([0, 1] : List Nat).length) ∧
    (training_step ([0, 1], [[0]]) sampleModel sampleOpts
        (fun _ _ => 0)).trace.count TSEvent.backward = 1 :=
  ⟨by decide,
    (training_step_loss_all_steps ([0, 1], [[0]]) sampleModel sampleOpts
      (fun _ _ => 0) (by decide)).2.1⟩

/-- **C10.** Every `training_step` call unconditionally puts the model into
training mode first — the first event of its trace is `setTrainMode`
regardless of the mode the model was left in — so the forward pass of every
parameter update runs with training-mode behaviour (the forward event always
records training mode on, never off), and the model comes out of the call in
training mode. -/
theorem training_step_sets_train_mode
    (tb : List Nat × List (List Nat)) (model : Model)
    (optimizers : List Optimizer) (loss_func : List Scores → List Nat → ℚ) :
    (training_step tb model optimizers loss_func).trace.head? =
      some TSEvent.setTrainMode ∧
    TSEvent.forward true ∈
      (training_step tb model optimizers loss_func).trace ∧
    TSEvent.forward false ∉
      (training_step tb model optimizers loss_func).trace ∧
    (training_step tb model optimizers loss_func).model.training = true := by
  have ht : (training_step tb model optimizers loss_func).trace =
      [TSEvent.setTrainMode]
        ++ (List.range optimizers.length).map TSEvent.zeroGrad
        ++ [TSEvent.forward true] ++ [TSEvent.backward]
        ++ (List.range optimizers.length).map TSEvent.stepOpt := rfl
  refine ⟨rfl, ?_, ?_, rfl⟩
  · rw [ht]
    simp
  · rw [ht]
    simp

/-- **C4.** With `training_epochs=1`, `train_batch_size=8`, a training
dataset of 16 examples, and `log_every_n_batches=1` (and any positive
evaluation cadence, which Python requires to avoid a modulo-by-zero), the
single-config training loop emits exactly 2 training metric reports, whose
step values — the cumulative processed-example count used as the step axis —
are 8 and then 16. -/
theorem normal_training_two_reports (evalN : Nat) (hE : 0 < evalN) :
    (normal_training_reports
        { sampleConfig with training := ⟨8, 1, 1, evalN, 0⟩ } 16).filterMap
      trainLossStep = [8, 16] := by
  show (runEpochs (batchSizes 16 8) 1 evalN 1 0 0).filterMap trainLossStep
    = [8, 16]
  have hb : batchSizes 16 8 = [8, 8] := rfl
  rw [hb]
  simp only [runEpochs, epochLoop, Nat.zero_mod, Nat.mod_self]
  norm_num [List.filterMap_append, trainLossStep]
  split <;> simp [trainLossStep]

/-- Witness for C4 with evaluation cadence 1. -/
theorem normal_training_two_reports_witness :
    (0 : Nat) < 1 ∧
    (normal_training_reports
        { sampleConfig with training := ⟨8, 1, 1, 1, 0⟩ } 16).filterMap
      trainLossStep = [8, 16] :=
  ⟨by decide, normal_training_two_reports 1 (by decide)⟩

/-- Witness for C10 at a concrete batch and a model left in evaluation
mode: the trace still opens with `setTrainMode`. -/
theorem training_step_sets_train_mode_witness :
    (training_step ([0, 1], [[0]]) sampleModel sampleOpts
      (fun _ _ => 0)).trace.head? = some TSEvent.setTrainMode :=
  (training_step_sets_train_mode ([0, 1], [[0]]) sampleModel sampleOpts
    (fun _ _ => 0)).1

theorem epochLoop_head (epoch logN evalN b num : Nat) (rest : List Nat) :
    (epochLoop epoch logN evalN (b :: rest) 0 num).1 =
      Report.trainLoss epoch 0 (num + b) ::
        Report.evalReport epoch 0 (num + b) ::
          (epochLoop epoch logN evalN rest 1 (num + b)).1 := by
  simp [epochLoop, Nat.zero_mod]

theorem runEpochs_first_batch (logN evalN b : Nat) (rest sizes : List Nat)
    (hsz : sizes = b :: rest) :
    ∀ (left e0 num e : Nat), e0 ≤ e → e < e0 + left →
      ∃ s, Report.trainLoss e 0 s ∈ runEpochs sizes logN evalN left e0 num ∧
        Report.evalReport e 0 s ∈ runEpochs sizes logN evalN left e0 num := by
  intro left
  induction left with
  | zero =>
    intro e0 num e h1 h2
    omega
  | succ n ih =>
    intro e0 num e h1 h2
    simp only [runEpochs]
    by_cases he : e = e0
    · subst he
      refine ⟨num + b, ?_, ?_⟩
      · rw [hsz, epochLoop_head]
        exact List.mem_append_left _ (List.mem_cons_self _ _)
      · rw [hsz, epochLoop_head]
        exact List.mem_append_left _
          (List.mem_cons_of_mem _ (List.mem_cons_self _ _))
    · obtain ⟨s, hm1, hm2⟩ := ih (e0 + 1)
        (epochLoop e0 logN evalN sizes 0 num).2 e (by omega) (by omega)
      exact ⟨s, List.mem_append_right _ hm1, List.mem_append_right _ hm2⟩

/-- **C9.** In the single-config training loop, for every epoch and all
positive logging and evaluation cadences, the first batch of the epoch
(batch index 0) triggers both a training metric report and a full
evaluation, because each cadence test is `idx % N == 0` and the batch index
restarts at 0 every epoch. -/
theorem normal_training_first_batch_reports (config : Config)
    (nExamples : Nat)
    (hlog : 0 < config.training.log_every_n_batches)
    (heval : 0 < config.training.eval_every_n_batches)
    (hne : batchSizes nExamples config.training.train_batch_size ≠ []) :
    ∀ e, e < config.training.training_epochs →
      ∃ s, Report.trainLoss e 0 s ∈ normal_training_reports config nExamples ∧
        Report.evalReport e 0 s ∈ normal_training_reports config nExamples := by
  intro e he
  obtain ⟨b, rest, hsz⟩ := List.exists_cons_of_ne_nil hne
  exact runEpochs_first_batch _ _ b rest _ hsz
    config.training.training_epochs 0 0 e (Nat.zero_le _) (by omega)

/-- Witness for C9 at `sampleConfig` over a 16-example dataset, epoch 0. -/
theorem normal_training_first_batch_reports_witness :
    (0 : Nat) < sampleConfig.training.log_every_n_batches ∧
    (0 : Nat) < sampleConfig.training.eval_every_n_batches ∧
    batchSizes 16 sampleConfig.training.train_batch_size ≠ [] ∧
    (0 : Nat) < sampleConfig.training.training_epochs ∧
    ∃ s, Report.trainLoss 0 0 s ∈ normal_training_reports sampleConfig 16 ∧
      Report.evalReport 0 0 s ∈ normal_training_reports sampleConfig 16 :=
  ⟨by decide, by decide, by decide, by decide,
    normal_training_first_batch_reports sampleConfig 16 (by decide)
      (by decide) (by decide) 0 (by decide)⟩

theorem runCalls_train_creations (calls : List DLCall) :
    ∀ s : DataState, (runCalls s calls).2.2.count Split.train ≤
      if s.train_dataset = none then 1 else 0 := by
  induction calls with
  | nil =>
    intro s
    simp [runCalls]
  | cons c rest ih =>
    intro s
    cases c with
    | train config =>
      cases htd : s.train_dataset with
      | none =>
        have hih := ih
          { s with nextId := s.nextId + 1, train_dataset := some s.nextId }
        simp only [Option.some_ne_none, if_neg, reduceIte] at hih
        simp only [runCalls, get_train_dataloader, htd]
        simp only [List.count_cons, List.count_append, htd, if_pos]
        simp
        omega
      | some d =>
        have hih := ih s
        simp only [htd, reduceIte] at hih
        simp only [runCalls, get_train_dataloader, htd]
        simpa using hih
    | eval config =>
      cases hed : s.eval_dataset with
      | none =>
        have hih := ih
          { s with nextId := s.nextId + 1, eval_dataset := some s.nextId }
        simp only [runCalls, get_eval_dataloader, hed]
        simpa using hih
      | some d =>
        have hih := ih s
        simp only [runCalls, get_eval_dataloader, hed]
        simpa using hih

theorem runCalls_eval_creations (calls : List DLCall) :
    ∀ s : DataState, (runCalls s calls).2.2.count Split.eval ≤
      if s.eval_dataset = none then 1 else 0 := by
  induction calls with
  | nil =>
    intro s
    simp [runCalls]
  | cons c rest ih =>
    intro s
    cases c with
    | train config =>
      cases htd : s.train_dataset with
      | none =>
        have hih := ih
          { s with nextId := s.nextId + 1, train_dataset := some s.nextId }
        simp only [runCalls, get_train_dataloader, htd]
        simpa using hih
      | some d =>
        have hih := ih s
        simp only [runCalls, get_train_dataloader, htd]
        simpa using hih
    | eval config =>
      cases hed : s.eval_dataset with
      | none =>
        have hih := ih
          { s with nextId := s.nextId + 1, eval_dataset := some s.nextId }
        simp only [Option.some_ne_none, if_neg, reduceIte] at hih
        simp only [runCalls, get_eval_dataloader, hed]
        simp only [List.count_cons, List.count_append, hed, if_pos]
        simp
        omega
      | some d =>
        have hih := ih s
        simp only [hed, reduceIte] at hih
        simp only [runCalls, get_eval_dataloader, hed]
        simpa using hih

theorem runCalls_train_preserved (calls : List DLCall) :
    ∀ (s : DataState) (d : Nat), s.train_dataset = some d →
      (runCalls s calls).2.1.train_dataset = some d := by
  induction calls with
  | nil =>
    intro s d hd
    simpa [runCalls] using hd
  | cons c rest ih =>
    intro s d hd
    cases c with
    | train config =>
      simp only [runCalls, get_train_dataloader, hd]
      exact ih s d hd
    | eval config =>
      cases hed : s.eval_dataset with
      | none =>
        simp only [runCalls, get_eval_dataloader, hed]
        exact ih _ d hd
      | some e =>
        simp only [runCalls, get_eval_dataloader, hed]
        exact ih s d hd

theorem runCalls_eval_preserved (calls : List DLCall) :
    ∀ (s : DataState) (d : Nat), s.eval_dataset = some d →
      (runCalls s calls).2.1.eval_dataset = some d := by
  induction calls with
  | nil =>
    intro s d hd
    simpa [runCalls] using hd
  | cons c rest ih =>
    intro s d hd
    cases c with
    | eval config =>
      simp only [runCalls, get_eval_dataloader, hd]
      exact ih s d hd
    | train config =>
      cases htd : s.train_dataset with
      | none =>
        simp only [runCalls, get_train_dataloader, htd]
        exact ih _ d hd
      | some e =>
        simp only [runCalls, get_train_dataloader, htd]
        exact ih s d hd

theorem runCalls_train_results (calls : List DLCall) :
    ∀ (s : DataState), ∀ r ∈ (runCalls s calls).1, r.1 = Split.train →
      (runCalls s calls).2.1.train_dataset = some r.2.dataset := by
  induction calls with
  | nil =>
    intro s r hr
    simp [runCalls] at hr
  | cons c rest ih =>
    intro s r hr hsplit
    cases c with
    | train config =>
      cases htd : s.train_dataset with
      | none =>
        simp only [runCalls, get_train_dataloader, htd, List.mem_cons] at hr ⊢
        rcases hr with hr | hr
        · subst hr
          exact runCalls_train_preserved rest _ s.nextId rfl
        · exact ih _ r hr hsplit
      | some d =>
        simp only [runCalls, get_train_dataloader, htd, List.mem_cons] at hr ⊢
        rcases hr with hr | hr
        · subst hr
          exact runCalls_train_preserved rest s d htd
        · exact ih s r hr hsplit
    | eval config =>
      cases hed : s.eval_dataset with
      | none =>
        simp only [runCalls, get_eval_dataloader, hed, List.mem_cons] at hr ⊢
        rcases hr with hr | hr
        · subst hr
          exact absurd hsplit (by simp [DLCall.split])
        · exact ih _ r hr hsplit
      | some d =>
        simp only [runCalls, get_eval_dataloader, hed, List.mem_cons] at hr ⊢
        rcases hr with hr | hr
        · subst hr
          exact absurd hsplit (by simp [DLCall.split])
        · exact ih s r hr hsplit

theorem runCalls_eval_results (calls : List DLCall) :
    ∀ (s : DataState), ∀ r ∈ (runCalls s calls).1, r.1 = Split.eval →
      (runCalls s calls).2.1.eval_dataset = some r.2.dataset := by
  induction calls with
  | nil =>
    intro s r hr
    simp [runCalls] at hr
  | cons c rest ih =>
    intro s r hr hsplit
    cases c with
    | eval config =>
      cases hed : s.eval_dataset with
      | none =>
        simp only [runCalls, get_eval_dataloader, hed, List.mem_cons] at hr ⊢
        rcases hr with hr | hr
        · subst hr
          exact runCalls_eval_preserved rest _ s.nextId rfl
        · exact ih _ r hr hsplit
      | some d =>
        simp only [runCalls, get_eval_dataloader, hed, List.mem_cons] at hr ⊢
        rcases hr with hr | hr
        · subst hr
          exact runCalls_eval_preserved rest s d hed
        · exact ih s r hr hsplit
    | train config =>
      cases htd : s.train_dataset with
      | none =>
        simp only [runCalls, get_train_dataloader, htd, List.mem_cons] at hr ⊢
        rcases hr with hr | hr
        · subst hr
          exact absurd hsplit (by simp [DLCall.split])
        · exact ih _ r hr hsplit
      | some d =>
        simp only [runCalls, get_train_dataloader, htd, List.mem_cons] at hr ⊢
        rcases hr with hr | hr
        · subst hr
          exact absurd hsplit (by simp [DLCall.split])
        · exact ih s r hr hsplit

/-- **C8.** Within one process (starting from the module-load state in which
both dataset globals are `None`), any sequence of dataloader requests
constructs at most one dataset instance per split, and all loaders returned
for the same split wrap the same dataset instance — the first call builds
it, every subsequent call reuses it. -/
theorem dataset_cache_singleton_lazy (calls : List DLCall) :
    (runCalls initialDataState calls).2.2.count Split.train ≤ 1 ∧
    (runCalls initialDataState calls).2.2.count Split.eval ≤ 1 ∧
    ∀ r₁ ∈ (runCalls initialDataState calls).1,
      ∀ r₂ ∈ (runCalls initialDataState calls).1,
        r₁.1 = r₂.1 → r₁.2.dataset = r₂.2.dataset := by
  refine ⟨?_, ?_, ?_⟩
  · have h := runCalls_train_creations calls initialDataState
    simpa [initialDataState] using h
  · have h := runCalls_eval_creations calls initialDataState
    simpa [initialDataState] using h
  · intro r₁ h₁ r₂ h₂ hsp
    cases hs₁ : r₁.1 with
    | train =>
      have ha := runCalls_train_results calls initialDataState r₁ h₁ hs₁
      have hb := runCalls_train_results calls initialDataState r₂ h₂
        (by rw [← hsp, hs₁])
      rw [ha] at hb
      exact Option.some_injective _ hb
    | eval =>
      have ha := runCalls_eval_results calls initialDataState r₁ h₁ hs₁
      have hb := runCalls_eval_results calls initialDataState r₂ h₂
        (by rw [← hsp, hs₁])
      rw [ha] at hb
      exact Option.some_injective _ hb

/-- Witness for C8: two train requests and two eval requests; the inner
per-split quantifiers are instantiated at the first and second train loader,
which wrap the same dataset instance. -/
theorem dataset_cache_singleton_lazy_witness :
    (runCalls initialDataState
      [DLCall.train sampleConfig, DLCall.train sampleConfig,
       DLCall.eval sampleConfig, DLCall.eval sampleConfig]).2.2.count
        Split.train ≤ 1 ∧
    ∀ r₁ ∈ (runCalls initialDataState
      [DLCall.train sampleConfig, DLCall.train sampleConfig,
       DLCall.eval sampleConfig, DLCall.eval sampleConfig]).1,
      ∀ r₂ ∈ (runCalls initialDataState
        [DLCall.train sampleConfig, DLCall.train sampleConfig,
         DLCall.eval sampleConfig, DLCall.eval sampleConfig]).1,
        r₁.1 = r₂.1 → r₁.2.dataset = r₂.2.dataset :=
  ⟨(dataset_cache_singleton_lazy
      [DLCall.train sampleConfig, DLCall.train sampleConfig,
       DLCall.eval sampleConfig, DLCall.eval sampleConfig]).1,
   (dataset_cache_singleton_lazy
      [DLCall.train sampleConfig, DLCall.train sampleConfig,
       DLCall.eval sampleConfig, DLCall.eval sampleConfig]).2.2⟩

theorem le_foldr_max (l : List Nat) : ∀ x ∈ l, x ≤ l.foldr max 0 := by
  induction l with
  | nil =>
    intro x hx
    simp at hx
  | cons a l ih =>
    intro x hx
    rcases List.mem_cons.mp hx with h | h
    · subst h
      exact le_max_left _ _
    · exact le_trans (ih x h) (le_max_right _ _)

theorem nextSample_not_mem (history : List Nat) :
    nextSample history ∉ history := by
  intro hmem
  have h := le_foldr_max history _ hmem
  unfold nextSample at h
  omega

theorem sampledConfigs_fresh :
    ∀ (n : Nat) (history : List Nat), ∀ c ∈ sampledConfigs history n,
      c ∉ history := by
  intro n
  induction n with
  | zero =>
    intro history c hc
    simp [sampledConfigs] at hc
  | succ m ih =>
    intro history c hc
    simp only [sampledConfigs, List.mem_cons] at hc
    rcases hc with hc | hc
    · subst hc
      exact nextSample_not_mem history
    · intro hmem
      exact ih (history ++ [nextSample history]) c hc
        (List.mem_append_left _ hmem)

theorem sampledConfigs_length :
    ∀ (n : Nat) (history : List Nat), (sampledConfigs history n).length = n := by
  intro n
  induction n with
  | zero =>
    intro history
    rfl
  | succ m ih =>
    intro history
    simp [sampledConfigs, ih]

/-- **C5 (amended).** Two independent universals. First: every
configuration naming an unsupported optimizer makes `get_optimizers` raise
`NotImplementedError` before any training, whatever its tuning method.
Second: every configuration naming an unsupported tuning method makes
`tune_training` raise `NotImplementedError` with a trace containing only the
`ray.init()` call — so no device or data loader is allocated, no Trial
Wrapper is constructed and no checkpoint directory is created, although the
Ray runtime has already been initialized by then — whatever its optimizer
name. -/
theorem unsupported_config_fails_fast :
    (∀ (model : Model) (config : Config), config.optimizer.name ≠ "adam" →
      get_optimizers model config = .error "NotImplementedError") ∧
    (∀ (config : Config) (ckpt : List Nat) (restoreOk : Bool),
      config.tune.tuning_method ≠ "bohb" →
      config.tune.tuning_method ≠ "hyperopt" →
      config.tune.tuning_method ≠ "no_search" →
      (tune_training config ckpt restoreOk).2 = .error "NotImplementedError" ∧
      (tune_training config ckpt restoreOk).1 = [TuneAction.rayInit]) := by
  constructor
  · intro model config hopt
    simp [get_optimizers, hopt]
  · intro config ckpt restoreOk ht1 ht2 ht3
    constructor
    · simp [tune_training, ht1, ht2, ht3]
    · simp [tune_training, ht1, ht2, ht3]

/-- Witness for C5 (amended): the first universal at `sgdConfig`
(unsupported optimizer `'sgd'` paired with the supported `'hyperopt'`
method), the second at `badMethodConfig` (unsupported method `'foo'` paired
with the supported `'adam'` optimizer). -/
theorem unsupported_config_fails_fast_witness :
    sgdConfig.optimizer.name ≠ "adam" ∧
    sgdConfig.tune.tuning_method = "hyperopt" ∧
    badMethodConfig.tune.tuning_method ≠ "bohb" ∧
    badMethodConfig.tune.tuning_method ≠ "hyperopt" ∧
    badMethodConfig.tune.tuning_method ≠ "no_search" ∧
    badMethodConfig.optimizer.name = "adam" ∧
    get_optimizers sampleModel sgdConfig = .error "NotImplementedError" ∧
    (tune_training badMethodConfig [] true).1 = [TuneAction.rayInit] :=
  ⟨by decide, rfl, by decide, by decide, by decide, rfl,
    unsupported_config_fails_fast.1 sampleModel sgdConfig (by decide),
    (unsupported_config_fails_fast.2 badMethodConfig [] true (by decide)
      (by decide) (by decide)).2⟩

/-- Counterexample to C5 as stated: for the unsupported tuning method
`"foo"`, `tune_training` does raise, but only after the `ray.init()` side
effect — the failure is not free of side effects. -/
theorem tune_training_ray_init_before_raise :
    (tune_training badMethodConfig [] true).2 =
      .error "NotImplementedError" ∧
    TuneAction.rayInit ∈ (tune_training badMethodConfig [] true).1 := by
  constructor
  · rfl
  · show TuneAction.rayInit ∈ [TuneAction.rayInit]
    exact List.mem_singleton.mpr rfl

/-- **C6 (amended).** For every hyperopt-method search run with the resume
flag set and a loadable checkpoint, the trace of `tune_training` is: the Ray
runtime start, then the checkpoint restore (before any sampling), the
warm-start report, then one block per trial — the search algorithm's
proposal, the trial run, and the checkpoint save `HyperOptFIFO.on_trial_complete`
performs when the trial completes — and no proposed configuration is one
already present in the checkpoint's observation history. -/
theorem tune_training_hyperopt_checkpointing (config : Config)
    (ckpt : List Nat)
    (hm : config.tune.tuning_method = "hyperopt")
    (hr : config.tune.resume = true) :
    ∃ cs : List Nat,
      (tune_training config ckpt true).1 =
        [TuneAction.rayInit,
         TuneAction.restoreCheckpoint (checkpointDir config) true,
         TuneAction.warmStart ckpt.length] ++
        (cs.map fun c => [TuneAction.sample c, TuneAction.runTrial c,
            TuneAction.saveCheckpoint (checkpointDir config)]).flatten ++
        [TuneAction.tuneRunDone] ∧
      cs.length = config.tune.n_samples ∧
      ∀ c ∈ cs, c ∉ ckpt := by
  refine ⟨sampledConfigs ckpt config.tune.n_samples, ?_,
    sampledConfigs_length _ _, fun c hc => sampledConfigs_fresh _ _ c hc⟩
  simp [tune_training, hm, hr, tuneRunHyperopt]

/-- Witness for C6 (amended) at `sampleConfig` with checkpoint history
`[5]`. -/
theorem tune_training_hyperopt_checkpointing_witness :
    sampleConfig.tune.tuning_method = "hyperopt" ∧
    sampleConfig.tune.resume = true ∧
    ∃ cs : List Nat,
      (tune_training sampleConfig [5] true).1 =
        [TuneAction.rayInit,
         TuneAction.restoreCheckpoint (checkpointDir sampleConfig) true,
         TuneAction.warmStart ([5] : List Nat).length] ++
        (cs.map fun c => [TuneAction.sample c, TuneAction.runTrial c,
            TuneAction.saveCheckpoint (checkpointDir sampleConfig)]).flatten
        ++ [TuneAction.tuneRunDone] ∧
      cs.length = sampleConfig.tune.n_samples ∧
      ∀ c ∈ cs, c ∉ ([5] : List Nat) :=
  ⟨rfl, rfl,
    tune_training_hyperopt_checkpointing sampleConfig [5] rfl rfl⟩

/-- Counterexample to C6 as stated ("for every search run"): a bohb-method
run with the resume flag set and a completed trial neither restores any
checkpoint before sampling nor saves any checkpoint after the completed
trial. -/
theorem tune_training_bohb_no_checkpointing :
    bohbConfig.tune.resume = true ∧
    TuneAction.runTrial 0 ∈ (tune_training bohbConfig [5] true).1 ∧
    (∀ d b, TuneAction.restoreCheckpoint d b ∉
      (tune_training bohbConfig [5] true).1) ∧
    (∀ d, TuneAction.saveCheckpoint d ∉
      (tune_training bohbConfig [5] true).1) := by
  have htr : (tune_training bohbConfig [5] true).1 =
      [TuneAction.rayInit, TuneAction.buildSearchSpace "bohb",
       TuneAction.sample 0, TuneAction.runTrial 0, TuneAction.tuneRunDone] :=
    rfl
  refine ⟨rfl, ?_, ?_, ?_⟩
  · rw [htr]
    simp
  · intro d b
    rw [htr]
    simp
  · intro d
    rw [htr]
    simp

/-- **C7.** For every hyperopt-method resume attempt whose checkpoint load
fails, the failure is recovered locally: the run still succeeds, the
cold-start warning is emitted right after the failed restore, and the rest
of the run is exactly the run that happens with the resume flag off —
sampling as if no checkpoint existed. -/
theorem tune_training_coldstart_on_restore_failure (config : Config)
    (ckpt : List Nat)
    (hm : config.tune.tuning_method = "hyperopt")
    (hr : config.tune.resume = true) :
    (tune_training config ckpt false).2 = .ok () ∧
    TuneAction.warnColdStart ∈ (tune_training config ckpt false).1 ∧
    ∃ rest,
      (tune_training config ckpt false).1 =
        [TuneAction.rayInit,
         TuneAction.restoreCheckpoint (checkpointDir config) false,
         TuneAction.warnColdStart] ++ rest ∧
      (tune_training
          { config with tune := { config.tune with resume := false } }
          ckpt false).1 = [TuneAction.rayInit] ++ rest := by
  refine ⟨?_, ?_, tuneRunHyperopt (checkpointDir config) []
      config.tune.n_samples ++ [TuneAction.tuneRunDone], ?_, ?_⟩
  · simp [tune_training, hm, hr]
  · simp [tune_training, hm, hr]
  · simp [tune_training, hm, hr]
  · simp [tune_training, hm, checkpointDir]

/-- Witness for C7 at `sampleConfig` with checkpoint history `[5]` and a
failing restore. -/
theorem tune_training_coldstart_on_restore_failure_witness :
    sampleConfig.tune.tuning_method = "hyperopt" ∧
    sampleConfig.tune.resume = true ∧
    (tune_training sampleConfig [5] false).2 = .ok () ∧
    TuneAction.warnColdStart ∈ (tune_training sampleConfig [5] false).1 :=
  ⟨rfl, rfl,
    (tune_training_coldstart_on_restore_failure sampleConfig [5] rfl rfl).1,
    (tune_training_coldstart_on_restore_failure sampleConfig [5] rfl rfl).2.1⟩

end TrainPy
